import Mathlib

/-!
Verification development for a small task-tracking service backed by a
key-value store with hash maps and one ordered set. The definitions below
embed the data model and the repository functions of the source
(persistTask, fetchTask, deleteTask, fetchTasks) together with the decimal
integer serialization used for the Timestamp field. The theorems settle
the specified properties of the persistence layer.
-/

namespace DockCompGo

/-- Model of the Task record. The Timestamp stands for a signed 64 bit
integer of seconds since the epoch. -/
structure Task where
  Id : String
  Name : String
  Description : String
  Timestamp : Int
  TaskerId : String
  WorkerId : String
deriving DecidableEq

/-- Backend errors (StoreError) are identified by their message text. -/
abbrev Err := String

/-- Lower bound of the signed 64 bit integer range used by the timestamp
parser. -/
def int64Min : Int := -(2 ^ 63)

/-- Upper bound of the signed 64 bit integer range used by the timestamp
parser. -/
def int64Max : Int := 2 ^ 63 - 1

/-- The decimal digit character for a value below ten. -/
def digitChar (n : Nat) : Char := Char.ofNat (48 + n)

/-- Decimal digits of a natural number, most significant first: the
encoding produced for an int64 argument when the client library serializes
it (strconv.AppendInt with base ten). -/
def natToDigits (n : Nat) : List Char :=
  if _h : n < 10 then [digitChar n]
  else natToDigits (n / 10) ++ [digitChar (n % 10)]
decreasing_by exact Nat.div_lt_self (by omega) (by omega)

/-- Numeric value of a decimal digit character, none for any other
character. -/
def digitVal? (c : Char) : Option Nat :=
  if 48 ≤ c.toNat ∧ c.toNat ≤ 57 then some (c.toNat - 48) else none

/-- Outcome of the unsigned digit scan of strconv.ParseUint: the
accumulated value, a syntax error, or a range overflow. -/
inductive ParseOut where
  | ok (n : Nat)
  | syntaxErr
  | rangeErr
deriving DecidableEq

/-- Largest uint64 value, the overflow limit of the digit scan. -/
def uintMaxVal : Nat := 2 ^ 64 - 1

/-- First accumulator value whose next base-ten extension must overflow
(maxVal of the scan divided by the base, plus one). -/
def uintCutoff : Nat := uintMaxVal / 10 + 1

/-- The digit loop of strconv.ParseUint with base ten: each character is
first checked to be a digit (anything else is a syntax error), then the
accumulator is checked against the overflow cutoff and extended. An
overflow reports a range error at once, before any later character of
the string is looked at. -/
def parseUintLoop : List Char → Nat → ParseOut
  | [], n => ParseOut.ok n
  | c :: cs, n =>
    match digitVal? c with
    | none => ParseOut.syntaxErr
    | some d =>
      if uintCutoff ≤ n then ParseOut.rangeErr
      else if uintMaxVal < 10 * n + d then ParseOut.rangeErr
      else parseUintLoop cs (10 * n + d)

/-- Sign handling of strconv.ParseInt: an optional leading plus or minus
character. -/
def stripSign (cs : List Char) : Bool × List Char :=
  match cs with
  | [] => (false, [])
  | c :: rest =>
    if c = '-' then (true, rest)
    else if c = '+' then (false, rest)
    else (false, c :: rest)

/-- Model of strconv.ParseInt(s, 10, 64) as used on the Timestamp field:
the first component is the value ParseInt returns (zero on a syntax
error, the clamped int64 boundary when the scan overflows or the value
exceeds the int64 range) and the second is whether parsing succeeded. -/
def goParseInt64 (s : String) : Int × Bool :=
  let p := stripSign s.data
  if p.2 = [] then (0, false)
  else
    match parseUintLoop p.2 0 with
    | ParseOut.syntaxErr => (0, false)
    | ParseOut.rangeErr => if p.1 then (int64Min, false) else (int64Max, false)
    | ParseOut.ok un =>
      if p.1 then
        if 2 ^ 63 < un then (int64Min, false) else (-(un : Int), true)
      else
        if 2 ^ 63 ≤ un then (int64Max, false) else ((un : Int), true)

/-- Smallest power-of-two spacing exponent of the float64 grid around a
magnitude: zero below 2 ^ 53, and the unique e with the magnitude inside
the half-open span of 2 ^ 53 * 2 ^ e above; the fuel bounds the number of
halvings and 64 suffices for every uint64 magnitude. -/
def f64ExpAux : Nat → Nat → Nat
  | 0, _ => 0
  | fuel + 1, m => if m < 2 ^ 53 then 0 else f64ExpAux fuel (m / 2) + 1

/-- Round a magnitude to the nearest multiple of 2 ^ e, ties to the even
multiple - the IEEE round-to-nearest-even rule on the float64 grid. -/
def roundMag (m : Nat) (e : Nat) : Nat :=
  if m % 2 ^ e < 2 ^ (e - 1) then m / 2 ^ e * 2 ^ e
  else if 2 ^ (e - 1) < m % 2 ^ e then (m / 2 ^ e + 1) * 2 ^ e
  else if (m / 2 ^ e) % 2 = 0 then m / 2 ^ e * 2 ^ e
  else (m / 2 ^ e + 1) * 2 ^ e

/-- Value of the float64 nearest to an int64 - the conversion the program
applies to the timestamp before using it as the index score. Every such
value is an integer, so the model keeps scores as integers: exact below
2 ^ 53, rounded to the nearest even multiple of a power of two above. -/
def float64ofInt64 (n : Int) : Int :=
  if f64ExpAux 64 n.natAbs = 0 then n
  else if n < 0 then -(roundMag n.natAbs (f64ExpAux 64 n.natAbs) : Int)
  else (roundMag n.natAbs (f64ExpAux 64 n.natAbs) : Int)

/-- Decimal serialization of an int64 value, the form in which the
Timestamp is written into the field map. -/
def formatInt (n : Int) : String :=
  if n < 0 then String.mk ('-' :: natToDigits n.natAbs)
  else String.mk (natToDigits n.toNat)

theorem digitVal_digitChar (n : Nat) (h : n < 10) :
    digitVal? (digitChar n) = some n := by
  interval_cases n <;> decide

theorem uintMaxVal_eq : uintMaxVal = 18446744073709551615 := by decide

theorem uintCutoff_eq : uintCutoff = 1844674407370955162 := by decide

theorem natToDigits_ne_nil (n : Nat) : natToDigits n ≠ [] := by
  rw [natToDigits]
  split
  · simp
  · simp

theorem parseUintLoop_append (xs ys : List Char) (a : Nat) :
    parseUintLoop (xs ++ ys) a =
      match parseUintLoop xs a with
      | ParseOut.ok b => parseUintLoop ys b
      | ParseOut.syntaxErr => ParseOut.syntaxErr
      | ParseOut.rangeErr => ParseOut.rangeErr := by
  induction xs generalizing a with
  | nil => rfl
  | cons c cs ih =>
    simp only [List.cons_append, parseUintLoop]
    cases digitVal? c with
    | none => rfl
    | some d =>
      by_cases h1 : uintCutoff ≤ a
      · simp [h1]
      · by_cases h2 : uintMaxVal < 10 * a + d
        · simp [h1, h2]
        · simp [h1, h2, ih]

theorem parseUintLoop_natToDigits (n : Nat) :
    ∀ a, a * 10 ^ (natToDigits n).length + n ≤ uintMaxVal →
      parseUintLoop (natToDigits n) a =
        ParseOut.ok (a * 10 ^ (natToDigits n).length + n) := by
  induction n using Nat.strong_induction_on with
  | _ n ih =>
    intro a hbound
    by_cases hn : n < 10
    · rw [natToDigits, dif_pos hn] at hbound ⊢
      simp only [List.length_cons, List.length_nil, Nat.zero_add, pow_one] at hbound ⊢
      simp only [parseUintLoop, digitVal_digitChar n hn]
      have hcut : ¬ (uintCutoff ≤ a) := by
        rw [uintCutoff_eq]
        rw [uintMaxVal_eq] at hbound
        omega
      have hmax : ¬ (uintMaxVal < 10 * a + n) := by
        rw [uintMaxVal_eq] at hbound ⊢
        omega
      rw [if_neg hcut, if_neg hmax]
      congr 1
      omega
    · rw [natToDigits, dif_neg hn] at hbound ⊢
      simp only [List.length_append, List.length_cons, List.length_nil] at hbound ⊢
      rw [parseUintLoop_append]
      have hmod : n = 10 * (n / 10) + n % 10 := (Nat.div_add_mod n 10).symm
      have hkey : ∀ X L : Nat, X * 10 ^ (L + (0 + 1)) + n =
          10 * (X * 10 ^ L + n / 10) + n % 10 := by
        intro X L
        rw [Nat.zero_add, pow_succ]
        conv_lhs => rw [hmod]
        ring
      have hsub : a * 10 ^ (natToDigits (n / 10)).length + n / 10 ≤ uintMaxVal := by
        have h1 := hkey a (natToDigits (n / 10)).length
        rw [uintMaxVal_eq] at hbound ⊢
        omega
      rw [ih (n / 10) (Nat.div_lt_self (by omega) (by omega)) a hsub]
      simp only [parseUintLoop, digitVal_digitChar (n % 10) (Nat.mod_lt _ (by omega))]
      have hcut : ¬ (uintCutoff ≤ a * 10 ^ (natToDigits (n / 10)).length + n / 10) := by
        have h1 := hkey a (natToDigits (n / 10)).length
        rw [uintCutoff_eq]
        rw [uintMaxVal_eq] at hbound
        omega
      have hmax : ¬ (uintMaxVal <
          10 * (a * 10 ^ (natToDigits (n / 10)).length + n / 10) + n % 10) := by
        have h1 := hkey a (natToDigits (n / 10)).length
        rw [uintMaxVal_eq] at hbound ⊢
        omega
      rw [if_neg hcut, if_neg hmax]
      congr 1
      have h1 := hkey a (natToDigits (n / 10)).length
      omega

theorem natToDigits_head (m : Nat) :
    ∃ d l, natToDigits m = digitChar d :: l ∧ d < 10 := by
  induction m using Nat.strong_induction_on with
  | _ m ih =>
    rw [natToDigits]
    split
    next h => exact ⟨m, [], rfl, h⟩
    next h =>
      obtain ⟨d, l, hd, hl⟩ := ih (m / 10) (Nat.div_lt_self (by omega) (by omega))
      exact ⟨d, l ++ [digitChar (m % 10)], by rw [hd]; rfl, hl⟩

theorem stripSign_digits (d : Nat) (hd : d < 10) (l : List Char) :
    stripSign (digitChar d :: l) = (false, digitChar d :: l) := by
  have h1 : digitChar d ≠ '-' := by interval_cases d <;> decide
  have h2 : digitChar d ≠ '+' := by interval_cases d <;> decide
  simp [stripSign, h1, h2]

/-- Serializing an int64 value and parsing it back returns the value. -/
theorem goParseInt64_formatInt (n : Int) (h1 : int64Min ≤ n) (h2 : n ≤ int64Max) :
    goParseInt64 (formatInt n) = (n, true) := by
  by_cases hn : n < 0
  · have hdata : (formatInt n).data = '-' :: natToDigits n.natAbs := by
      simp [formatInt, hn]
    have hstrip : stripSign (formatInt n).data = (true, natToDigits n.natAbs) := by
      rw [hdata]; simp [stripSign]
    have habs : n.natAbs ≤ 2 ^ 63 := by
      simp only [int64Min] at h1; omega
    have hloop : parseUintLoop (natToDigits n.natAbs) 0 = ParseOut.ok n.natAbs := by
      have hb : 0 * 10 ^ (natToDigits n.natAbs).length + n.natAbs ≤ uintMaxVal := by
        rw [uintMaxVal_eq]
        omega
      simpa using parseUintLoop_natToDigits n.natAbs 0 hb
    simp only [goParseInt64, hstrip, natToDigits_ne_nil n.natAbs, if_false, hloop,
      if_true]
    have hcut : ¬ (2 ^ 63 < n.natAbs) := by omega
    rw [if_neg hcut]
    simp only [Prod.mk.injEq, and_true]
    omega
  · have hdata : (formatInt n).data = natToDigits n.toNat := by
      simp [formatInt, hn]
    obtain ⟨d, l, hd, hl⟩ := natToDigits_head n.toNat
    have hstrip : stripSign (formatInt n).data = (false, natToDigits n.toNat) := by
      rw [hdata, hd, stripSign_digits d hl l]
    have hcut : ¬ (2 ^ 63 ≤ n.toNat) := by
      simp only [int64Max] at h2; omega
    have hloop : parseUintLoop (natToDigits n.toNat) 0 = ParseOut.ok n.toNat := by
      have hb : 0 * 10 ^ (natToDigits n.toNat).length + n.toNat ≤ uintMaxVal := by
        rw [uintMaxVal_eq]
        omega
      simpa using parseUintLoop_natToDigits n.toNat 0 hb
    simp only [goParseInt64, hstrip, natToDigits_ne_nil n.toNat, if_false, hloop,
      Bool.false_eq_true]
    rw [if_neg hcut]
    simp only [Prod.mk.injEq, and_true]
    omega

/-- Whenever parsing fails, the returned value is zero (syntax error) or
one of the clamped int64 boundaries (range overflow). -/
theorem goParseInt64_fail_values (s : String) (h : (goParseInt64 s).2 = false) :
    (goParseInt64 s).1 = 0 ∨ (goParseInt64 s).1 = int64Max ∨
      (goParseInt64 s).1 = int64Min := by
  simp only [goParseInt64] at h ⊢
  by_cases he : (stripSign s.data).2 = []
  · simp [he]
  · simp only [he, if_false] at h ⊢
    cases hp : parseUintLoop (stripSign s.data).2 0 with
    | ok un =>
      simp only [hp] at h ⊢
      split_ifs at h ⊢ <;> simp_all
    | syntaxErr => simp [hp]
    | rangeErr =>
      simp only [hp] at h ⊢
      split_ifs <;> simp

/-- A parse that fails on a non digit character before any overflow
returns value zero. -/
theorem goParseInt64_syntaxErr (s : String)
    (h : parseUintLoop (stripSign s.data).2 0 = ParseOut.syntaxErr) :
    goParseInt64 s = (0, false) := by
  have hne : (stripSign s.data).2 ≠ [] := by
    intro he
    rw [he] at h
    simp [parseUintLoop] at h
  simp [goParseInt64, hne, h]

/-- An empty digit part (no characters after the optional sign) returns
value zero. -/
theorem goParseInt64_empty (s : String) (h : (stripSign s.data).2 = []) :
    goParseInt64 s = (0, false) := by
  simp [goParseInt64, h]

/-- A scan that overflows the 64 bit range returns the clamped int64
boundary of the sign, whatever characters follow the overflow point. -/
theorem goParseInt64_rangeErr (s : String)
    (h : parseUintLoop (stripSign s.data).2 0 = ParseOut.rangeErr) :
    goParseInt64 s =
      (if (stripSign s.data).1 = true then int64Min else int64Max, false) := by
  have hne : (stripSign s.data).2 ≠ [] := by
    intro he
    rw [he] at h
    simp [parseUintLoop] at h
  simp only [goParseInt64, hne, if_false, h]
  split_ifs <;> rfl

/-- The float64 conversion is exact on values of magnitude at most
2 ^ 53, the range in which every integer is a float64 grid point. -/
theorem float64ofInt64_exact (n : Int) (h1 : -(2 ^ 53) ≤ n) (h2 : n ≤ 2 ^ 53) :
    float64ofInt64 n = n := by
  by_cases hm : n.natAbs < 2 ^ 53
  · have he : f64ExpAux 64 n.natAbs = 0 := by
      show f64ExpAux (63 + 1) n.natAbs = 0
      rw [f64ExpAux, if_pos hm]
    simp [float64ofInt64, he]
  · have hn : n = 2 ^ 53 ∨ n = -(2 ^ 53) := by omega
    rcases hn with h | h <;> rw [h] <;> decide

/-- State of the key-value backend: named field maps (hashes) and named
ordered sets, both as association lists with unique keys. -/
structure Store where
  hashes : List (String × List (String × String))
  zsets : List (String × List (String × Int))
deriving DecidableEq

/-- The backend with no data. -/
def emptyStore : Store := { hashes := [], zsets := [] }

/-- All fields of a field map; the empty list when the key is absent
(HGetAll). -/
def hgetAll (s : Store) (key : String) : List (String × String) :=
  (s.hashes.lookup key).getD []

/-- Merge of newly written fields into an existing field map: new values
win on shared field names, other fields are kept (HSET semantics). -/
def hsetMerge (old new : List (String × String)) : List (String × String) :=
  new ++ old.filter (fun p => (new.lookup p.1).isNone)

/-- Write a group of fields into the field map at a key (HSET). -/
def hset (s : Store) (key : String) (fields : List (String × String)) : Store :=
  { s with hashes :=
      (key, hsetMerge (hgetAll s key) fields) :: s.hashes.filter (fun p => p.1 != key) }

/-- Remove a whole key (UNLINK); removing an absent key changes nothing. -/
def unlink (s : Store) (key : String) : Store :=
  { s with hashes := s.hashes.filter (fun p => p.1 != key) }

/-- The member-score pairs of a named ordered set. -/
def zsetOf (s : Store) (n : String) : List (String × Int) :=
  (s.zsets.lookup n).getD []

/-- Replace the contents of a named ordered set. -/
def setZset (s : Store) (n : String) (l : List (String × Int)) : Store :=
  { s with zsets := (n, l) :: s.zsets.filter (fun p => p.1 != n) }

/-- Insert a member with a score into an ordered set, replacing the score
of an already present member (ZADD). -/
def zadd (s : Store) (n : String) (score : Int) (member : String) : Store :=
  setZset s n ((member, score) :: (zsetOf s n).filter (fun p => p.1 != member))

/-- Remove a member from an ordered set (ZREM); idempotent. -/
def zrem (s : Store) (n : String) (member : String) : Store :=
  setZset s n ((zsetOf s n).filter (fun p => p.1 != member))

/-- Lexicographic comparison of character lists by code point, the order
in which the backend compares members of equal score (byte-wise
lexicographic, which UTF-8 makes agree with code point order). -/
def lexLe : List Char → List Char → Bool
  | [], _ => true
  | _ :: _, [] => false
  | c :: cs, d :: ds =>
    if c.toNat < d.toNat then true
    else if d.toNat < c.toNat then false
    else lexLe cs ds

/-- Lexicographic comparison of member strings. -/
def strLexLe (a b : String) : Bool := lexLe a.data b.data

theorem lexLe_total (xs ys : List Char) :
    lexLe xs ys = true ∨ lexLe ys xs = true := by
  induction xs generalizing ys with
  | nil => left; rfl
  | cons c cs ih =>
    cases ys with
    | nil => right; rfl
    | cons d ds =>
      by_cases h1 : c.toNat < d.toNat
      · left; simp [lexLe, h1]
      · by_cases h2 : d.toNat < c.toNat
        · right; simp [lexLe, h2]
        · rcases ih ds with h | h
          · left; simp [lexLe, h1, h2, h]
          · right; simp [lexLe, h1, h2, h]

theorem lexLe_trans : ∀ xs ys zs : List Char,
    lexLe xs ys = true → lexLe ys zs = true → lexLe xs zs = true := by
  intro xs
  induction xs with
  | nil => intro ys zs h1 h2; rfl
  | cons c cs ih =>
    intro ys zs h1 h2
    cases ys with
    | nil => simp [lexLe] at h1
    | cons d ds =>
      cases zs with
      | nil => simp [lexLe] at h2
      | cons e es =>
        simp only [lexLe] at h1 h2 ⊢
        split_ifs at h1 h2 ⊢ <;>
          first
            | rfl
            | exact ih ds es h1 h2
            | (exfalso; omega)

/-- Enumeration order of an ordered set: ascending by score, ties broken
by the lexicographic member order, as ZRANGE reports members. -/
def zRel (a b : String × Int) : Prop :=
  a.2 < b.2 ∨ (a.2 = b.2 ∧ strLexLe a.1 b.1 = true)

instance : DecidableRel zRel := fun a b =>
  inferInstanceAs (Decidable (a.2 < b.2 ∨ (a.2 = b.2 ∧ strLexLe a.1 b.1 = true)))

instance : IsTotal (String × Int) zRel := by
  constructor
  intro a b
  rcases lt_trichotomy a.2 b.2 with h | h | h
  · exact Or.inl (Or.inl h)
  · rcases lexLe_total a.1.data b.1.data with h1 | h1
    · exact Or.inl (Or.inr ⟨h, h1⟩)
    · exact Or.inr (Or.inr ⟨h.symm, h1⟩)
  · exact Or.inr (Or.inl h)

instance : IsTrans (String × Int) zRel := by
  constructor
  intro a b c hab hbc
  rcases hab with h1 | ⟨h1, h1s⟩
  · rcases hbc with h2 | ⟨h2, _⟩
    · exact Or.inl (h1.trans h2)
    · exact Or.inl (h2 ▸ h1)
  · rcases hbc with h2 | ⟨h2, h2s⟩
    · exact Or.inl (h1 ▸ h2)
    · exact Or.inr ⟨h1.trans h2, lexLe_trans _ _ _ h1s h2s⟩

/-- Index arithmetic of ZRANGE over an already sorted member list: a
negative index counts from the end, out of range indices clamp, and an
empty slice results when the start lies after the stop. -/
def redisRange (l : List String) (start stop : Int) : List String :=
  let len : Int := l.length
  let a := max (if start < 0 then len + start else start) 0
  let b := min (if stop < 0 then len + stop else stop) (len - 1)
  if b < a then [] else (l.drop a.toNat).take (b - a + 1).toNat

/-- Members of an ordered set between two indices, sorted ascending by
score; the pair of bounds zero and minus one denotes the entire set
(ZRANGE). -/
def zrange (s : Store) (n : String) (start stop : Int) : List String :=
  redisRange ((List.insertionSort zRel (zsetOf s n)).map Prod.fst) start stop

/-- Key of the field map holding a task record. -/
def taskKey (id : String) : String := "task:" ++ id

/-- The field map written for a task, in the order the source lists the
field-value pairs. -/
def taskFields (t : Task) : List (String × String) :=
  [("Id", t.Id), ("Name", t.Name), ("Description", t.Description),
   ("Timestamp", formatInt t.Timestamp), ("TaskerId", t.TaskerId),
   ("WorkerId", t.WorkerId)]

/-- Embedding of persistTask. The two oracle arguments say whether the
two backend commands (HSET, then ZADD on the index named tasks) fail; a
failing command does not mutate the store and its error is returned, and
a failure of the first command skips the second. The ZADD score is the
float64 conversion of the timestamp, as the source narrows the int64
before handing it to the client. -/
def persistTask (e1 e2 : Option Err) (s : Store) (t : Task) : Store × Option Err :=
  match e1 with
  | some e => (s, some e)
  | none =>
    match e2 with
    | some e => (hset s (taskKey t.Id) (taskFields t), some e)
    | none =>
      (zadd (hset s (taskKey t.Id) (taskFields t)) "tasks"
        (float64ofInt64 t.Timestamp) t.Id, none)

/-- The store after a completed (error-free) persistTask. -/
def persistTaskPure (s : Store) (t : Task) : Store :=
  (persistTask none none s t).1

/-- Reconstruction of a task from a non-empty field map, each attribute
read from its string field; a missing field reads as the empty string. -/
def getField (m : List (String × String)) (f : String) : String :=
  (m.lookup f).getD ""

/-- Deserialization of a field map into a Task, the timestamp parsed from
its decimal string. -/
def deserializeTask (m : List (String × String)) : Task :=
  { Id := getField m "Id"
    Name := getField m "Name"
    Description := getField m "Description"
    Timestamp := (goParseInt64 (getField m "Timestamp")).1
    TaskerId := getField m "TaskerId"
    WorkerId := getField m "WorkerId" }

/-- Embedding of fetchTask without backend failure: none signals an
absent record (empty field map), otherwise the deserialized task. -/
def fetchTask (s : Store) (id : String) : Option Task :=
  if hgetAll s (taskKey id) = [] then none
  else some (deserializeTask (hgetAll s (taskKey id)))

/-- Embedding of fetchTask with the failure oracle for the single HGetAll
command it issues. -/
def fetchTaskE (hfail : String → Option Err) (s : Store) (id : String) :
    Except Err (Option Task) :=
  match hfail (taskKey id) with
  | some e => Except.error e
  | none => Except.ok (fetchTask s id)

/-- Embedding of deleteTask: UNLINK of the field map, then ZREM of the
index entry, each with its own failure oracle; a failure of the first
command skips the second and each error is returned as is. -/
def deleteTask (e1 e2 : Option Err) (s : Store) (id : String) : Store × Option Err :=
  match e1 with
  | some e => (s, some e)
  | none =>
    match e2 with
    | some e => (unlink s (taskKey id), some e)
    | none => (zrem (unlink s (taskKey id)) "tasks" id, none)

/-- The store after a completed (error-free) deleteTask. -/
def deleteTaskPure (s : Store) (id : String) : Store :=
  (deleteTask none none s id).1

/-- The resolution loop of fetchTasks over the ids returned by ZRANGE:
each id is fetched in order, a nil task of a dangling id is appended like
any other, and the first fetch error aborts the whole listing. -/
def fetchTasksLoop (hfail : String → Option Err) (s : Store) :
    List String → Except Err (List (Option Task))
  | [] => Except.ok []
  | id :: rest =>
    match fetchTaskE hfail s id with
    | Except.error e => Except.error e
    | Except.ok t =>
      match fetchTasksLoop hfail s rest with
      | Except.error e => Except.error e
      | Except.ok ts => Except.ok (t :: ts)

/-- Embedding of fetchTasks: ZRANGE over the full index (bounds zero and
minus one), then the resolution loop; zfail is the failure oracle of the
ZRANGE command. -/
def fetchTasks (zfail : Option Err) (hfail : String → Option Err) (s : Store) :
    Except Err (List (Option Task)) :=
  match zfail with
  | some e => Except.error e
  | none => fetchTasksLoop hfail s (zrange s "tasks" 0 (-1))

/-- The response of the POST handler: HTTP status, the task echoed back,
the created flag and the message. -/
structure PostResponse where
  status : Nat
  task : Task
  created : Bool
  message : String
deriving DecidableEq

/-- Embedding of the POST handler: the bound body fields are kept, the id
and the timestamp are overwritten with the server-assigned values, then
persistTask runs and the handler reports the outcome. -/
def postTaskHandler (newId : String) (now : Int) (e1 e2 : Option Err)
    (s : Store) (bound : Task) : Store × PostResponse :=
  let task := { bound with Id := newId, Timestamp := now }
  match persistTask e1 e2 s task with
  | (s1, some er) => (s1, ⟨500, task, false, er⟩)
  | (s1, none) => (s1, ⟨201, task, true, "Task Created Successfully"⟩)

/-- Embedding of createTask: the task built from the four request fields
together with the server-assigned id and timestamp. -/
def createTask (newId : String) (now : Int)
    (taskerId workerId nm desc : String) : Task :=
  { Id := newId, Name := nm, Description := desc, Timestamp := now,
    TaskerId := taskerId, WorkerId := workerId }

/-- A completed repository operation: a create of a full task record or a
delete by id. -/
inductive Op where
  | create (t : Task)
  | delete (id : String)
deriving DecidableEq

/-- Effect of one completed operation on the store. -/
def applyOp (s : Store) : Op → Store
  | Op.create t => persistTaskPure s t
  | Op.delete id => deleteTaskPure s id

/-- The store reached from the empty backend by a sequence of completed
operations. -/
def runOps (ops : List Op) : Store :=
  ops.foldl applyOp emptyStore

/-- The id is a member of the ordered index named tasks. -/
def memberOfIndex (s : Store) (id : String) : Prop :=
  ((zsetOf s "tasks").lookup id).isSome = true

instance (s : Store) (id : String) : Decidable (memberOfIndex s id) := by
  unfold memberOfIndex
  infer_instance

/-- The field map of the id is present (non-empty). -/
def hasFields (s : Store) (id : String) : Prop :=
  hgetAll s (taskKey id) ≠ []

instance (s : Store) (id : String) : Decidable (hasFields s id) := by
  unfold hasFields
  infer_instance

/-- Correspondence between the ordered index and the field maps: an id is
indexed exactly when its field map exists. -/
def Inv (s : Store) : Prop :=
  ∀ id, memberOfIndex s id ↔ hasFields s id

/-- Every indexed member resolves to a present task whose timestamp
equals the score of the index entry. -/
def ScoreMatches (s : Store) : Prop :=
  ∀ p ∈ zsetOf s "tasks", ∃ t, fetchTask s p.1 = some t ∧ t.Timestamp = p.2

/-- Timestamp of a possibly absent listing entry. -/
def optTimestamp : Option Task → Int
  | some t => t.Timestamp
  | none => 0

theorem lookup_filter_ne {β : Type} (l : List (String × β)) (k j : String)
    (h : j ≠ k) :
    (l.filter (fun p => p.1 != k)).lookup j = l.lookup j := by
  induction l with
  | nil => rfl
  | cons p t ih =>
    by_cases hk : p.1 = k
    · have hbne : (p.1 != k) = false := by simp [hk]
      have hj : (j == p.1) = false := by rw [hk]; simp [h]
      simp [List.filter_cons, hbne, List.lookup, hj, ih]
    · have hbne : (p.1 != k) = true := by simp [hk]
      cases hj : (j == p.1) with
      | true => simp [List.filter_cons, hbne, List.lookup, hj]
      | false => simp [List.filter_cons, hbne, List.lookup, hj, ih]

theorem lookup_filter_self {β : Type} (l : List (String × β)) (k : String) :
    (l.filter (fun p => p.1 != k)).lookup k = none := by
  induction l with
  | nil => rfl
  | cons p t ih =>
    by_cases hk : p.1 = k
    · have hbne : (p.1 != k) = false := by simp [hk]
      simp [List.filter_cons, hbne, ih]
    · have hbne : (p.1 != k) = true := by simp [hk]
      have hj : (k == p.1) = false := by simp; exact fun e => hk e.symm
      simp [List.filter_cons, hbne, List.lookup, hj, ih]

theorem taskKey_inj {a b : String} (h : taskKey a = taskKey b) : a = b := by
  have hd : "task:".data ++ a.data = "task:".data ++ b.data := by
    have := congrArg String.data h
    simpa [taskKey, String.data_append] using this
  have h2 : a.data = b.data := List.append_cancel_left hd
  cases a; cases b
  exact congrArg String.mk h2

theorem hgetAll_hset_self (s : Store) (k : String) (f : List (String × String)) :
    hgetAll (hset s k f) k = hsetMerge (hgetAll s k) f := by
  simp [hgetAll, hset, List.lookup]

theorem hgetAll_hset_other (s : Store) (k f k2) (h : k2 ≠ k) :
    hgetAll (hset s k f) k2 = hgetAll s k2 := by
  have hj : (k2 == k) = false := by simp [h]
  simp [hgetAll, hset, List.lookup, hj, lookup_filter_ne _ _ _ h]

theorem hgetAll_unlink_self (s : Store) (k : String) :
    hgetAll (unlink s k) k = [] := by
  simp [hgetAll, unlink, lookup_filter_self]

theorem hgetAll_unlink_other (s : Store) (k k2) (h : k2 ≠ k) :
    hgetAll (unlink s k) k2 = hgetAll s k2 := by
  simp [hgetAll, unlink, lookup_filter_ne _ _ _ h]

theorem hgetAll_zadd (s : Store) (n : String) (sc : Int) (m k : String) :
    hgetAll (zadd s n sc m) k = hgetAll s k := rfl

theorem hgetAll_zrem (s : Store) (n m k : String) :
    hgetAll (zrem s n m) k = hgetAll s k := rfl

theorem zsetOf_hset (s : Store) (k f n) : zsetOf (hset s k f) n = zsetOf s n := rfl

theorem zsetOf_unlink (s : Store) (k n) : zsetOf (unlink s k) n = zsetOf s n := rfl

theorem zsetOf_zadd_self (s : Store) (n : String) (sc : Int) (m : String) :
    zsetOf (zadd s n sc m) n =
      (m, sc) :: (zsetOf s n).filter (fun p => p.1 != m) := by
  simp [zsetOf, zadd, setZset, List.lookup]

theorem zsetOf_zrem_self (s : Store) (n m : String) :
    zsetOf (zrem s n m) n = (zsetOf s n).filter (fun p => p.1 != m) := by
  simp [zsetOf, zrem, setZset, List.lookup]

theorem hgetAll_persistTaskPure_self (s : Store) (t : Task) :
    hgetAll (persistTaskPure s t) (taskKey t.Id) =
      hsetMerge (hgetAll s (taskKey t.Id)) (taskFields t) := by
  simp [persistTaskPure, persistTask, hgetAll_zadd, hgetAll_hset_self]

theorem hgetAll_persistTaskPure_other (s : Store) (t : Task) (j : String)
    (h : j ≠ t.Id) :
    hgetAll (persistTaskPure s t) (taskKey j) = hgetAll s (taskKey j) := by
  have hk : taskKey j ≠ taskKey t.Id := fun e => h (taskKey_inj e)
  simp [persistTaskPure, persistTask, hgetAll_zadd, hgetAll_hset_other _ _ _ _ hk]

theorem hgetAll_deleteTaskPure_self (s : Store) (id : String) :
    hgetAll (deleteTaskPure s id) (taskKey id) = [] := by
  simp [deleteTaskPure, deleteTask, hgetAll_zrem, hgetAll_unlink_self]

theorem hgetAll_deleteTaskPure_other (s : Store) (id j : String) (h : j ≠ id) :
    hgetAll (deleteTaskPure s id) (taskKey j) = hgetAll s (taskKey j) := by
  have hk : taskKey j ≠ taskKey id := fun e => h (taskKey_inj e)
  simp [deleteTaskPure, deleteTask, hgetAll_zrem, hgetAll_unlink_other _ _ _ hk]

theorem zsetOf_persistTaskPure (s : Store) (t : Task) :
    zsetOf (persistTaskPure s t) "tasks" =
      (t.Id, float64ofInt64 t.Timestamp) ::
        (zsetOf s "tasks").filter (fun p => p.1 != t.Id) := by
  simp [persistTaskPure, persistTask, zsetOf_zadd_self, zsetOf_hset]

theorem zsetOf_deleteTaskPure (s : Store) (id : String) :
    zsetOf (deleteTaskPure s id) "tasks" =
      (zsetOf s "tasks").filter (fun p => p.1 != id) := by
  simp [deleteTaskPure, deleteTask, zsetOf_zrem_self, zsetOf_unlink]

theorem fetchTask_congr (s1 s2 : Store) (id : String)
    (h : hgetAll s1 (taskKey id) = hgetAll s2 (taskKey id)) :
    fetchTask s1 id = fetchTask s2 id := by
  simp [fetchTask, h]

theorem taskFields_keys (t : Task) :
    (taskFields t).map Prod.fst =
      ["Id", "Name", "Description", "Timestamp", "TaskerId", "WorkerId"] := by
  simp [taskFields]

theorem getField_hsetMerge_taskFields (old : List (String × String)) (t : Task) :
    getField (hsetMerge old (taskFields t)) "Id" = t.Id ∧
    getField (hsetMerge old (taskFields t)) "Name" = t.Name ∧
    getField (hsetMerge old (taskFields t)) "Description" = t.Description ∧
    getField (hsetMerge old (taskFields t)) "Timestamp" = formatInt t.Timestamp ∧
    getField (hsetMerge old (taskFields t)) "TaskerId" = t.TaskerId ∧
    getField (hsetMerge old (taskFields t)) "WorkerId" = t.WorkerId := by
  simp [getField, hsetMerge, taskFields, List.lookup]

theorem hsetMerge_taskFields_ne_nil (old : List (String × String)) (t : Task) :
    hsetMerge old (taskFields t) ≠ [] := by
  simp [hsetMerge, taskFields]

/-- Fetching a task right after persisting it returns the task itself,
as long as its timestamp is inside the int64 range in which the decimal
round trip is exact. -/
theorem fetchTask_persistTaskPure (s : Store) (t : Task)
    (h1 : int64Min ≤ t.Timestamp) (h2 : t.Timestamp ≤ int64Max) :
    fetchTask (persistTaskPure s t) t.Id = some t := by
  have hh := hgetAll_persistTaskPure_self s t
  have hne := hsetMerge_taskFields_ne_nil (hgetAll s (taskKey t.Id)) t
  obtain ⟨g1, g2, g3, g4, g5, g6⟩ :=
    getField_hsetMerge_taskFields (hgetAll s (taskKey t.Id)) t
  simp only [fetchTask, hh, hne, if_false, deserializeTask, g1, g2, g3, g4, g5, g6,
    goParseInt64_formatInt t.Timestamp h1 h2]

theorem redisRange_full (l : List String) : redisRange l 0 (-1) = l := by
  cases l with
  | nil => rfl
  | cons x xs =>
    simp only [redisRange, List.length_cons]
    have h0 : ¬ ((0 : Int) < 0) := by norm_num
    have h1 : ((-1 : Int) < 0) := by norm_num
    rw [if_neg h0, if_pos h1]
    push_cast
    have ha : max (0 : Int) 0 = 0 := by norm_num
    have hb : min (((xs.length : Int) + 1) + -1) (((xs.length : Int) + 1) - 1) =
        (xs.length : Int) := by omega
    rw [ha, hb]
    have hc : ¬ ((xs.length : Int) < 0) := by omega
    rw [if_neg hc]
    have hd : ((xs.length : Int) - 0 + 1).toNat = xs.length + 1 := by omega
    rw [hd]
    simp

theorem zrange_full (s : Store) (n : String) :
    zrange s n 0 (-1) = (List.insertionSort zRel (zsetOf s n)).map Prod.fst := by
  rw [zrange, redisRange_full]

theorem memberOfIndex_persist_self (s : Store) (t : Task) :
    memberOfIndex (persistTaskPure s t) t.Id := by
  simp [memberOfIndex, zsetOf_persistTaskPure, List.lookup]

theorem memberOfIndex_persist_other (s : Store) (t : Task) (j : String)
    (h : j ≠ t.Id) :
    memberOfIndex (persistTaskPure s t) j ↔ memberOfIndex s j := by
  have hj : (j == t.Id) = false := by simp [h]
  unfold memberOfIndex
  rw [zsetOf_persistTaskPure]
  have hstep :
      List.lookup j
        ((t.Id, float64ofInt64 t.Timestamp) ::
          (zsetOf s "tasks").filter (fun p => p.1 != t.Id)) =
      List.lookup j ((zsetOf s "tasks").filter (fun p => p.1 != t.Id)) := by
    simp [List.lookup, hj]
  rw [hstep, lookup_filter_ne _ _ _ h]

theorem memberOfIndex_delete_self (s : Store) (id : String) :
    ¬ memberOfIndex (deleteTaskPure s id) id := by
  simp [memberOfIndex, zsetOf_deleteTaskPure, lookup_filter_self]

theorem memberOfIndex_delete_other (s : Store) (id j : String) (h : j ≠ id) :
    memberOfIndex (deleteTaskPure s id) j ↔ memberOfIndex s j := by
  simp [memberOfIndex, zsetOf_deleteTaskPure, lookup_filter_ne _ _ _ h]

theorem Inv_emptyStore : Inv emptyStore := by
  intro id
  simp [memberOfIndex, hasFields, zsetOf, hgetAll, emptyStore]

theorem Inv_persist (s : Store) (t : Task) (h : Inv s) :
    Inv (persistTaskPure s t) := by
  intro id
  by_cases hid : id = t.Id
  · subst hid
    apply iff_of_true (memberOfIndex_persist_self s t)
    simp [hasFields, hgetAll_persistTaskPure_self, hsetMerge_taskFields_ne_nil]
  · rw [memberOfIndex_persist_other s t id hid]
    have hf : hasFields (persistTaskPure s t) id ↔ hasFields s id := by
      simp [hasFields, hgetAll_persistTaskPure_other s t id hid]
    rw [hf]
    exact h id

theorem Inv_delete (s : Store) (id0 : String) (h : Inv s) :
    Inv (deleteTaskPure s id0) := by
  intro id
  by_cases hid : id = id0
  · subst hid
    apply iff_of_false (memberOfIndex_delete_self s id)
    simp [hasFields, hgetAll_deleteTaskPure_self]
  · rw [memberOfIndex_delete_other s id0 id hid]
    have hf : hasFields (deleteTaskPure s id0) id ↔ hasFields s id := by
      simp [hasFields, hgetAll_deleteTaskPure_other s id0 id hid]
    rw [hf]
    exact h id

theorem Inv_foldl (ops : List Op) :
    ∀ s, Inv s → Inv (ops.foldl applyOp s) := by
  induction ops with
  | nil => intro s h; exact h
  | cons op rest ih =>
    intro s h
    simp only [List.foldl_cons]
    apply ih
    cases op with
    | create t => exact Inv_persist s t h
    | delete id => exact Inv_delete s id h

theorem scoreMatches_empty : ScoreMatches emptyStore := by
  intro p hp
  simp [zsetOf, emptyStore] at hp

theorem scoreMatches_persist (s : Store) (t : Task) (h : ScoreMatches s)
    (h1 : -(2 ^ 53) ≤ t.Timestamp) (h2 : t.Timestamp ≤ 2 ^ 53) :
    ScoreMatches (persistTaskPure s t) := by
  intro p hp
  rw [zsetOf_persistTaskPure] at hp
  rcases List.mem_cons.mp hp with hp | hp
  · subst hp
    refine ⟨t, fetchTask_persistTaskPure s t ?_ ?_, ?_⟩
    · simp only [int64Min]; omega
    · simp only [int64Max]; omega
    · exact (float64ofInt64_exact t.Timestamp h1 h2).symm
  · have hmem := List.mem_filter.mp hp
    have hne : p.1 ≠ t.Id := by
      have := hmem.2; simpa using this
    have hfetch : fetchTask (persistTaskPure s t) p.1 = fetchTask s p.1 :=
      fetchTask_congr _ _ _ (hgetAll_persistTaskPure_other s t p.1 hne)
    rw [hfetch]
    exact h p hmem.1

theorem scoreMatches_delete (s : Store) (id : String) (h : ScoreMatches s) :
    ScoreMatches (deleteTaskPure s id) := by
  intro p hp
  rw [zsetOf_deleteTaskPure] at hp
  have hmem := List.mem_filter.mp hp
  have hne : p.1 ≠ id := by
    have := hmem.2; simpa using this
  have hfetch : fetchTask (deleteTaskPure s id) p.1 = fetchTask s p.1 :=
    fetchTask_congr _ _ _ (hgetAll_deleteTaskPure_other s id p.1 hne)
  rw [hfetch]
  exact h p hmem.1

theorem scoreMatches_foldl (ops : List Op) :
    ∀ s, ScoreMatches s →
      (∀ t, Op.create t ∈ ops →
        -(2 ^ 53) ≤ t.Timestamp ∧ t.Timestamp ≤ 2 ^ 53) →
      ScoreMatches (ops.foldl applyOp s) := by
  induction ops with
  | nil => intro s h _; exact h
  | cons op rest ih =>
    intro s h hops
    simp only [List.foldl_cons]
    apply ih
    · cases op with
      | create t =>
        have ht := hops t (List.mem_cons_self _ _)
        exact scoreMatches_persist s t h ht.1 ht.2
      | delete id => exact scoreMatches_delete s id h
    · intro t ht
      exact hops t (List.mem_cons_of_mem _ ht)

theorem fetchTasksLoop_eq (hfail : String → Option Err) (s : Store)
    (ids : List String) :
    fetchTasksLoop hfail s ids =
      match ids.findSome? (fun id => hfail (taskKey id)) with
      | some e => Except.error e
      | none => Except.ok (ids.map (fetchTask s)) := by
  induction ids with
  | nil => rfl
  | cons id rest ih =>
    simp only [fetchTasksLoop, fetchTaskE, List.findSome?_cons, List.map_cons]
    cases hf : hfail (taskKey id) with
    | some e => rfl
    | none =>
      rw [ih]
      cases hrest : rest.findSome? (fun i => hfail (taskKey i)) <;> rfl

theorem findSome?_none {α : Type} (l : List α) :
    l.findSome? (fun _ => (none : Option Err)) = none := by
  induction l with
  | nil => rfl
  | cons x xs ih => simp [List.findSome?_cons, ih]

theorem fetchTasks_ok (s : Store) :
    fetchTasks none (fun _ => none) s =
      Except.ok ((zrange s "tasks" 0 (-1)).map (fetchTask s)) := by
  rw [fetchTasks, fetchTasksLoop_eq, findSome?_none]

theorem pairwise_imp_mem {α : Type} {R S : α → α → Prop} :
    ∀ l : List α, (∀ a ∈ l, ∀ b ∈ l, R a b → S a b) →
      l.Pairwise R → l.Pairwise S := by
  intro l
  induction l with
  | nil => intro _ _; exact List.Pairwise.nil
  | cons x xs ih =>
    intro hmem hp
    rcases List.pairwise_cons.mp hp with ⟨hx, hxs⟩
    refine List.pairwise_cons.mpr ⟨?_, ?_⟩
    · intro b hb
      exact hmem x (List.mem_cons_self _ _) b (List.mem_cons_of_mem _ hb) (hx b hb)
    · exact ih
        (fun a ha b hb hr =>
          hmem a (List.mem_cons_of_mem _ ha) b (List.mem_cons_of_mem _ hb) hr)
        hxs

theorem optTimestamp_fetch (s : Store) (hsm : ScoreMatches s) (p : String × Int)
    (hp : p ∈ zsetOf s "tasks") :
    (fetchTask s p.1).isSome = true ∧ optTimestamp (fetchTask s p.1) = p.2 := by
  obtain ⟨t, hfetch, hts⟩ := hsm p hp
  rw [hfetch]
  exact ⟨rfl, hts⟩

theorem listing_of_scoreMatches (s : Store) (hsm : ScoreMatches s) :
    ∃ l, fetchTasks none (fun _ => none) s = Except.ok l ∧
      (∀ x ∈ l, x.isSome = true) ∧
      l.Pairwise (fun a b => optTimestamp a ≤ optTimestamp b) := by
  refine ⟨(zrange s "tasks" 0 (-1)).map (fetchTask s), fetchTasks_ok s, ?_, ?_⟩
  · intro x hx
    rw [zrange_full, List.map_map] at hx
    obtain ⟨p, hp, rfl⟩ := List.mem_map.mp hx
    have hpz : p ∈ zsetOf s "tasks" :=
      (List.perm_insertionSort zRel (zsetOf s "tasks")).mem_iff.mp hp
    exact (optTimestamp_fetch s hsm p hpz).1
  · rw [zrange_full, List.map_map, List.pairwise_map]
    apply pairwise_imp_mem _ ?_ (List.sorted_insertionSort zRel (zsetOf s "tasks"))
    intro a ha b hb hr
    have haz : a ∈ zsetOf s "tasks" :=
      (List.perm_insertionSort zRel (zsetOf s "tasks")).mem_iff.mp ha
    have hbz : b ∈ zsetOf s "tasks" :=
      (List.perm_insertionSort zRel (zsetOf s "tasks")).mem_iff.mp hb
    have h1 := (optTimestamp_fetch s hsm a haz).2
    have h2 := (optTimestamp_fetch s hsm b hbz).2
    show optTimestamp (fetchTask s a.1) ≤ optTimestamp (fetchTask s b.1)
    rw [h1, h2]
    rcases hr with hlt | ⟨heq, _⟩
    · exact le_of_lt hlt
    · exact le_of_eq heq

theorem findSome?_eq_none_of {α β : Type} (l : List α) (f : α → Option β)
    (h : ∀ x ∈ l, f x = none) : l.findSome? f = none := by
  induction l with
  | nil => rfl
  | cons x xs ih =>
    have hx := h x (List.mem_cons_self _ _)
    simp [List.findSome?_cons, hx, ih (fun y hy => h y (List.mem_cons_of_mem _ hy))]

/-- A concrete task used in witnesses. -/
def tA : Task :=
  { Id := "a", Name := "n1", Description := "d1", Timestamp := 5,
    TaskerId := "t1", WorkerId := "w1" }

/-- A second concrete task used in witnesses, with an earlier timestamp. -/
def tB : Task :=
  { Id := "b", Name := "n2", Description := "d2", Timestamp := 3,
    TaskerId := "t2", WorkerId := "w2" }

/-- Claim C1: creating a task from the four request fields together with
the server assigned id and timestamp and then fetching it by that id
returns a task whose name, description, taskerId and workerId equal the
inputs and whose id and timestamp equal the server assigned values. -/
theorem create_fetch_roundtrip (s : Store)
    (newId taskerId workerId nm desc : String) (now : Int)
    (h1 : int64Min ≤ now) (h2 : now ≤ int64Max) :
    fetchTask (persistTaskPure s (createTask newId now taskerId workerId nm desc))
        newId =
      some { Id := newId, Name := nm, Description := desc, Timestamp := now,
             TaskerId := taskerId, WorkerId := workerId } :=
  fetchTask_persistTaskPure s (createTask newId now taskerId workerId nm desc) h1 h2

/-- Witness for C1 at concrete inputs. -/
theorem create_fetch_roundtrip_witness :
    fetchTask (persistTaskPure emptyStore (createTask "a" 7 "t1" "w1" "n1" "d1"))
        "a" =
      some { Id := "a", Name := "n1", Description := "d1", Timestamp := 7,
             TaskerId := "t1", WorkerId := "w1" } :=
  create_fetch_roundtrip emptyStore "a" "t1" "w1" "n1" "d1" 7 (by decide) (by decide)

/-- Claim C2: every state reachable by completed creates and deletes
satisfies the index and field-map correspondence; the mid operation state
of create (field map written, index entry not yet added) and of delete
(field map removed, index entry not yet removed) breaks it exactly at the
affected id. -/
theorem index_fieldmap_invariant :
    (∀ ops : List Op, Inv (runOps ops)) ∧
    (∀ s t, Inv s → ¬ memberOfIndex s t.Id →
      hasFields (hset s (taskKey t.Id) (taskFields t)) t.Id ∧
      ¬ memberOfIndex (hset s (taskKey t.Id) (taskFields t)) t.Id ∧
      ∀ j, j ≠ t.Id →
        (memberOfIndex (hset s (taskKey t.Id) (taskFields t)) j ↔
          hasFields (hset s (taskKey t.Id) (taskFields t)) j)) ∧
    (∀ s id, Inv s → memberOfIndex s id →
      memberOfIndex (unlink s (taskKey id)) id ∧
      ¬ hasFields (unlink s (taskKey id)) id ∧
      ∀ j, j ≠ id →
        (memberOfIndex (unlink s (taskKey id)) j ↔
          hasFields (unlink s (taskKey id)) j)) := by
  refine ⟨fun ops => Inv_foldl ops emptyStore Inv_emptyStore, ?_, ?_⟩
  · intro s t hinv hmem
    refine ⟨?_, ?_, ?_⟩
    · simp [hasFields, hgetAll_hset_self, hsetMerge_taskFields_ne_nil]
    · simpa [memberOfIndex, zsetOf_hset] using hmem
    · intro j hj
      have hz : memberOfIndex (hset s (taskKey t.Id) (taskFields t)) j ↔
          memberOfIndex s j := by
        simp [memberOfIndex, zsetOf_hset]
      have hk : taskKey j ≠ taskKey t.Id := fun e => hj (taskKey_inj e)
      have hh : hasFields (hset s (taskKey t.Id) (taskFields t)) j ↔
          hasFields s j := by
        simp [hasFields, hgetAll_hset_other _ _ _ _ hk]
      rw [hz, hh]
      exact hinv j
  · intro s id hinv hmem
    refine ⟨?_, ?_, ?_⟩
    · simpa [memberOfIndex, zsetOf_unlink] using hmem
    · simp [hasFields, hgetAll_unlink_self]
    · intro j hj
      have hz : memberOfIndex (unlink s (taskKey id)) j ↔ memberOfIndex s j := by
        simp [memberOfIndex, zsetOf_unlink]
      have hk : taskKey j ≠ taskKey id := fun e => hj (taskKey_inj e)
      have hh : hasFields (unlink s (taskKey id)) j ↔ hasFields s j := by
        simp [hasFields, hgetAll_unlink_other _ _ _ hk]
      rw [hz, hh]
      exact hinv j

/-- Witness for C2 at a concrete operation sequence and concrete mid
operation states. -/
theorem index_fieldmap_invariant_witness :
    Inv (runOps [Op.create tA, Op.delete "a"]) ∧
    hasFields (hset emptyStore (taskKey tA.Id) (taskFields tA)) tA.Id ∧
    ¬ hasFields (unlink (runOps [Op.create tA]) (taskKey "a")) "a" := by
  refine ⟨index_fieldmap_invariant.1 _, ?_, ?_⟩
  · exact (index_fieldmap_invariant.2.1 emptyStore tA Inv_emptyStore (by decide)).1
  · exact (index_fieldmap_invariant.2.2 (runOps [Op.create tA]) "a"
      (index_fieldmap_invariant.1 [Op.create tA]) (by decide)).2.1

/-- Claim C3: persistTask writes the field map before the index entry;
when the field map write fails the index write is not attempted, the
store is unchanged and that error is returned; when only the index write
fails the field map is already written; on success the POST handler
answers with the fully populated task. -/
theorem persist_order_and_result (s : Store) (t : Task) (er : Err)
    (e2 : Option Err) (newId : String) (now : Int) (bound : Task) :
    persistTask (some er) e2 s t = (s, some er) ∧
    persistTask none (some er) s t =
      (hset s (taskKey t.Id) (taskFields t), some er) ∧
    persistTask none none s t =
      (zadd (hset s (taskKey t.Id) (taskFields t)) "tasks"
        (float64ofInt64 t.Timestamp) t.Id, none) ∧
    postTaskHandler newId now none none s bound =
      (persistTaskPure s { bound with Id := newId, Timestamp := now },
        ⟨201, { bound with Id := newId, Timestamp := now }, true,
          "Task Created Successfully"⟩) :=
  ⟨rfl, rfl, rfl, rfl⟩

/-- Store exhibiting a Timestamp field that is numeric but outside the
int64 range. -/
def overflowStore : Store :=
  { hashes := [("task:x", [("Id", "x"), ("Timestamp", "9223372036854775808")])],
    zsets := [] }

/-- Claim C4 counterexample: the Timestamp string 9223372036854775808 is
unparsable (ParseInt reports a range error there), yet the fetched task
carries the clamped boundary value, not zero. -/
theorem fetch_unparsable_timestamp_cex :
    (goParseInt64 "9223372036854775808").2 = false ∧
    fetchTask overflowStore "x" =
      some { Id := "x", Name := "", Description := "",
             Timestamp := 9223372036854775807, TaskerId := "", WorkerId := "" } ∧
    (9223372036854775807 : Int) ≠ 0 := by
  refine ⟨by decide, by decide, by decide⟩

/-- Claim C4 amended: a fetch yields absent, not an error, exactly when
the field map is empty (so a never created id yields absent); a non-empty
field map deserializes from its string fields; an unparsable Timestamp
yields a task rather than a failure, with timestamp zero when the scan
hits a non digit (or runs empty) before any 64 bit overflow, and with the
clamped int64 boundary of the sign when the scan overflows first (which
also happens when junk follows the overflowing digits) or when the
scanned value exceeds the int64 range. -/
theorem fetch_absent_and_timestamp_fallback (s : Store) (id str : String) :
    (fetchTaskE (fun _ => none) s id = Except.ok none ↔
      hgetAll s (taskKey id) = []) ∧
    fetchTask emptyStore id = none ∧
    (hgetAll s (taskKey id) ≠ [] →
      fetchTask s id = some (deserializeTask (hgetAll s (taskKey id)))) ∧
    (parseUintLoop (stripSign str.data).2 0 = ParseOut.syntaxErr →
      goParseInt64 str = (0, false)) ∧
    ((stripSign str.data).2 = [] → goParseInt64 str = (0, false)) ∧
    (parseUintLoop (stripSign str.data).2 0 = ParseOut.rangeErr →
      goParseInt64 str =
        (if (stripSign str.data).1 = true then int64Min else int64Max, false)) ∧
    ((goParseInt64 str).2 = false →
      (goParseInt64 str).1 = 0 ∨ (goParseInt64 str).1 = int64Max ∨
        (goParseInt64 str).1 = int64Min) := by
  refine ⟨?_, ?_, ?_, goParseInt64_syntaxErr str, goParseInt64_empty str,
    goParseInt64_rangeErr str, goParseInt64_fail_values str⟩
  · simp only [fetchTaskE]
    constructor
    · intro h
      have h2 : fetchTask s id = none := by simpa using h
      by_contra he
      simp [fetchTask, he] at h2
    · intro he
      simp [fetchTask, he]
  · simp [fetchTask, hgetAll, emptyStore]
  · intro he
    simp [fetchTask, he]

/-- Witness for the amended C4 at concrete inputs: an out-of-range purely
numeric field, a syntactic failure yielding zero, an overflow with
trailing junk yielding the positive clamp, and a negative overflow
yielding the negative clamp. -/
theorem fetch_absent_and_timestamp_fallback_witness :
    fetchTask overflowStore "x" =
      some (deserializeTask (hgetAll overflowStore (taskKey "x"))) ∧
    goParseInt64 "abc" = (0, false) ∧
    goParseInt64 "99999999999999999999x" = (int64Max, false) ∧
    goParseInt64 "-99999999999999999999" = (int64Min, false) ∧
    goParseInt64 "" = (0, false) ∧
    ((goParseInt64 "9223372036854775808").1 = 0 ∨
      (goParseInt64 "9223372036854775808").1 = int64Max ∨
      (goParseInt64 "9223372036854775808").1 = int64Min) := by
  refine
    ⟨(fetch_absent_and_timestamp_fallback overflowStore "x" "abc").2.2.1 (by decide),
      (fetch_absent_and_timestamp_fallback overflowStore "x" "abc").2.2.2.1
        (by decide),
      ?_, ?_,
      (fetch_absent_and_timestamp_fallback overflowStore "x" "").2.2.2.2.1
        (by decide),
      (fetch_absent_and_timestamp_fallback overflowStore "x"
        "9223372036854775808").2.2.2.2.2.2 (by decide)⟩
  · have h := (fetch_absent_and_timestamp_fallback overflowStore "x"
      "99999999999999999999x").2.2.2.2.2.1 (by decide)
    rw [h]
    decide
  · have h := (fetch_absent_and_timestamp_fallback overflowStore "x"
      "-99999999999999999999").2.2.2.2.2.1 (by decide)
    rw [h]
    decide

/-- Claim C5: deleteTask removes the field map before the index entry,
surfaces a failure of either step as is, and performs no existence check:
deleting an absent id succeeds and deleting the same id twice succeeds
both times. -/
theorem delete_semantics (s : Store) (id : String) (er : Err) (e2 : Option Err) :
    deleteTask (some er) e2 s id = (s, some er) ∧
    deleteTask none (some er) s id = (unlink s (taskKey id), some er) ∧
    (deleteTask none none s id).2 = none ∧
    (hgetAll s (taskKey id) = [] → (deleteTask none none s id).2 = none) ∧
    (deleteTask none none (deleteTaskPure s id) id).2 = none :=
  ⟨rfl, rfl, rfl, fun _ => rfl, rfl⟩

/-- Witness for C5: deleting a never created id on the empty store. -/
theorem delete_semantics_witness :
    (deleteTask none none emptyStore "zz").2 = none :=
  (delete_semantics emptyStore "zz" "boom" none).2.2.2.1 (by decide)

/-- A task whose timestamp is the largest int64, used to exhibit the
float64 narrowing of index scores. -/
def bigA : Task :=
  { Id := "a", Name := "na", Description := "da", Timestamp := 2 ^ 63 - 1,
    TaskerId := "ta", WorkerId := "wa" }

/-- A task whose distinct timestamp rounds to the same float64 score as
the one of bigA. -/
def bigB : Task :=
  { Id := "b", Name := "nb", Description := "db", Timestamp := 2 ^ 63 - 400,
    TaskerId := "tb", WorkerId := "wb" }

/-- Claim C6 counterexample: with int64 timestamps the claim fails. The
distinct timestamps 2 ^ 63 - 1 and 2 ^ 63 - 400 share the float64 score
2 ^ 63, the index breaks the tie by member, and the listing comes back
with strictly decreasing timestamps. -/
theorem listAll_sorted_by_timestamp_cex :
    fetchTasks none (fun _ => none) (runOps [Op.create bigA, Op.create bigB]) =
      Except.ok [some bigA, some bigB] ∧
    ¬ ([some bigA, some bigB] : List (Option Task)).Pairwise
        (fun a b => optTimestamp a ≤ optTimestamp b) := by
  constructor
  · have hrun : runOps [Op.create bigA, Op.create bigB] =
        persistTaskPure (persistTaskPure emptyStore bigA) bigB := rfl
    rw [fetchTasks_ok, zrange_full, hrun]
    have hz : zsetOf (persistTaskPure (persistTaskPure emptyStore bigA) bigB)
        "tasks" = [("b", (2 : Int) ^ 63), ("a", (2 : Int) ^ 63)] := by
      rw [zsetOf_persistTaskPure, zsetOf_persistTaskPure]
      decide
    rw [hz]
    have hsort : List.insertionSort zRel
        [("b", (2 : Int) ^ 63), ("a", (2 : Int) ^ 63)] =
        [("a", (2 : Int) ^ 63), ("b", (2 : Int) ^ 63)] := by decide
    rw [hsort]
    have hb : fetchTask (persistTaskPure (persistTaskPure emptyStore bigA) bigB)
        "b" = some bigB :=
      fetchTask_persistTaskPure (persistTaskPure emptyStore bigA) bigB
        (by decide) (by decide)
    have ha : fetchTask (persistTaskPure (persistTaskPure emptyStore bigA) bigB)
        "a" = some bigA := by
      rw [fetchTask_congr _ (persistTaskPure emptyStore bigA) "a"
        (hgetAll_persistTaskPure_other (persistTaskPure emptyStore bigA) bigB "a"
          (by decide))]
      exact fetchTask_persistTaskPure emptyStore bigA (by decide) (by decide)
    simp only [List.map_cons, List.map_nil]
    rw [ha, hb]
  · intro hp
    have h2 := (List.pairwise_cons.mp hp).1 (some bigB) (by simp)
    simp only [optTimestamp, bigA, bigB] at h2
    omega

/-- Claim C6 amended: over any store reached by completed creates and
deletes in any order, with create timestamps of magnitude at most 2 ^ 53
(exactly representable as float64 scores - true of epoch seconds), the
listing succeeds, every entry is present, and the entries come sorted
ascending by timestamp, the order of the ordered index by score. -/
theorem listAll_sorted_by_timestamp (ops : List Op)
    (hops : ∀ t, Op.create t ∈ ops →
      -(2 ^ 53) ≤ t.Timestamp ∧ t.Timestamp ≤ 2 ^ 53) :
    ∃ l, fetchTasks none (fun _ => none) (runOps ops) = Except.ok l ∧
      (∀ x ∈ l, x.isSome = true) ∧
      l.Pairwise (fun a b => optTimestamp a ≤ optTimestamp b) :=
  listing_of_scoreMatches (runOps ops)
    (scoreMatches_foldl ops emptyStore scoreMatches_empty hops)

/-- Witness for C6: two creates issued in decreasing timestamp order. -/
theorem listAll_sorted_by_timestamp_witness :
    ∃ l, fetchTasks none (fun _ => none)
        (runOps [Op.create tA, Op.create tB]) = Except.ok l ∧
      (∀ x ∈ l, x.isSome = true) ∧
      l.Pairwise (fun a b => optTimestamp a ≤ optTimestamp b) := by
  apply listAll_sorted_by_timestamp
  intro t ht
  simp only [List.mem_cons, List.not_mem_nil, or_false, Op.create.injEq] at ht
  rcases ht with h | h <;> subst h <;> constructor <;> decide

/-- Claim C7: the listing resolves each id returned by the full index
range in index order; the first failing resolution aborts the listing
with exactly that error and no partial result; with no failures the
listing is the ordered sequence of the fetches, and a failing range
command aborts with its own error. -/
theorem listAll_error_propagation (zf : Option Err)
    (hfail : String → Option Err) (s : Store) (er : Err) :
    ((zrange s "tasks" 0 (-1)).findSome? (fun id => hfail (taskKey id)) =
        some er →
      fetchTasks none hfail s = Except.error er) ∧
    ((∀ id ∈ zrange s "tasks" 0 (-1), hfail (taskKey id) = none) →
      fetchTasks none hfail s =
        Except.ok ((zrange s "tasks" 0 (-1)).map (fetchTask s))) ∧
    (zf = some er → fetchTasks zf hfail s = Except.error er) := by
  refine ⟨?_, ?_, ?_⟩
  · intro h
    rw [fetchTasks, fetchTasksLoop_eq, h]
  · intro h
    rw [fetchTasks, fetchTasksLoop_eq, findSome?_eq_none_of _ _ h]
  · intro h
    rw [h]
    rfl

/-- A store whose index holds one id, used in witnesses. -/
def oneIdxStore : Store := { hashes := [], zsets := [("tasks", [("b", 1)])] }

/-- A failure oracle that fails the fetch of the key of id b. -/
def failB : String → Option Err :=
  fun k => if k = "task:b" then some "boom" else none

/-- Witness for C7: a failing resolution, a failing range command, and a
failure-free listing, each at concrete inputs. -/
theorem listAll_error_propagation_witness :
    fetchTasks none failB oneIdxStore = Except.error "boom" ∧
    fetchTasks (some "zr") failB oneIdxStore = Except.error "zr" ∧
    fetchTasks none (fun _ => none) oneIdxStore =
      Except.ok ((zrange oneIdxStore "tasks" 0 (-1)).map (fetchTask oneIdxStore)) :=
  ⟨(listAll_error_propagation none failB oneIdxStore "boom").1 (by decide),
    (listAll_error_propagation (some "zr") failB oneIdxStore "zr").2.2 rfl,
    (listAll_error_propagation none (fun _ => none) oneIdxStore "zz").2.1
      (fun id _ => rfl)⟩

/-- Claim C8: an id in the index whose field map is empty does not abort
the listing: the listing succeeds, keeps one entry per index position,
and carries an absent entry at the position of the dangling id. -/
theorem listAll_dangling_tolerance (s : Store) (id : String)
    (hmem : id ∈ zrange s "tasks" 0 (-1))
    (hdangling : hgetAll s (taskKey id) = []) :
    ∃ l, fetchTasks none (fun _ => none) s = Except.ok l ∧
      l.length = (zrange s "tasks" 0 (-1)).length ∧
      none ∈ l ∧
      ∀ k : Nat, (zrange s "tasks" 0 (-1))[k]? = some id → l[k]? = some none := by
  have hf : fetchTask s id = none := by simp [fetchTask, hdangling]
  refine ⟨(zrange s "tasks" 0 (-1)).map (fetchTask s), fetchTasks_ok s,
    by simp, ?_, ?_⟩
  · exact List.mem_map.mpr ⟨id, hmem, hf⟩
  · intro k hk
    rw [List.getElem?_map, hk]
    simp [hf]

/-- A store with a single dangling index entry, used in witnesses. -/
def danglingStore : Store := { hashes := [], zsets := [("tasks", [("g", 2)])] }

/-- Witness for C8 at the concrete dangling store. -/
theorem listAll_dangling_tolerance_witness :
    ∃ l, fetchTasks none (fun _ => none) danglingStore = Except.ok l ∧
      l.length = (zrange danglingStore "tasks" 0 (-1)).length ∧
      none ∈ l ∧
      ∀ k : Nat, (zrange danglingStore "tasks" 0 (-1))[k]? = some "g" →
        l[k]? = some none :=
  listAll_dangling_tolerance danglingStore "g" (by decide) (by decide)

/-- Claim C9 counterexample: the stored index score is the float64 value
of the timestamp, not the timestamp itself - at timestamp 2 ^ 63 - 1 the
stored score is 2 ^ 63. -/
theorem persisted_layout_cex :
    List.lookup bigA.Id (zsetOf (persistTaskPure emptyStore bigA) "tasks") =
      some (2 ^ 63) ∧
    bigA.Timestamp = 2 ^ 63 - 1 ∧ ((2 : Int) ^ 63 ≠ 2 ^ 63 - 1) := by
  refine ⟨?_, rfl, by norm_num⟩
  rw [zsetOf_persistTaskPure]
  have hval : float64ofInt64 bigA.Timestamp = 2 ^ 63 := by decide
  simp [List.lookup, hval]

/-- Claim C9 amended: a task with a fresh id is persisted as a field map
under the key task:<id> with exactly the six fields Id, Name,
Description, Timestamp, TaskerId, WorkerId in string encodings, and as a
member of the ordered set named tasks whose member is the id and whose
score is the float64 value of the timestamp - equal to the timestamp
itself whenever its magnitude is at most 2 ^ 53, as for epoch seconds. -/
theorem persisted_layout (s : Store) (t : Task)
    (hfresh : hgetAll s (taskKey t.Id) = []) :
    hgetAll (persistTaskPure s t) (taskKey t.Id) = taskFields t ∧
    (taskFields t).map Prod.fst =
      ["Id", "Name", "Description", "Timestamp", "TaskerId", "WorkerId"] ∧
    List.lookup t.Id (zsetOf (persistTaskPure s t) "tasks") =
      some (float64ofInt64 t.Timestamp) ∧
    (-(2 ^ 53) ≤ t.Timestamp → t.Timestamp ≤ 2 ^ 53 →
      List.lookup t.Id (zsetOf (persistTaskPure s t) "tasks") =
        some t.Timestamp) ∧
    taskKey t.Id = "task:" ++ t.Id := by
  have hlook : List.lookup t.Id (zsetOf (persistTaskPure s t) "tasks") =
      some (float64ofInt64 t.Timestamp) := by
    rw [zsetOf_persistTaskPure]
    simp [List.lookup]
  refine ⟨?_, taskFields_keys t, hlook, ?_, rfl⟩
  · rw [hgetAll_persistTaskPure_self, hfresh]
    simp [hsetMerge]
  · intro h1 h2
    rw [hlook, float64ofInt64_exact t.Timestamp h1 h2]

/-- Witness for C9 at the empty store and a concrete task. -/
theorem persisted_layout_witness :
    hgetAll (persistTaskPure emptyStore tA) (taskKey tA.Id) = taskFields tA ∧
    List.lookup tA.Id (zsetOf (persistTaskPure emptyStore tA) "tasks") =
      some tA.Timestamp ∧
    taskKey tA.Id = "task:" ++ tA.Id := by
  have h := persisted_layout emptyStore tA (by decide)
  exact ⟨h.1, h.2.2.2.1 (by decide) (by decide), h.2.2.2.2⟩

/-- Claim C10: a fetch depends only on the field map stored under the key
derived from the queried id — two stores agreeing there fetch equal
results — and the returned Id comes from the stored Id field, not from
the queried id. -/
theorem fetch_depends_only_on_fieldmap (s1 s2 : Store) (id : String) :
    (hgetAll s1 (taskKey id) = hgetAll s2 (taskKey id) →
      fetchTask s1 id = fetchTask s2 id) ∧
    (∀ t, fetchTask s1 id = some t →
      t.Id = getField (hgetAll s1 (taskKey id)) "Id") := by
  refine ⟨fetchTask_congr s1 s2 id, ?_⟩
  intro t ht
  by_cases he : hgetAll s1 (taskKey id) = []
  · simp [fetchTask, he] at ht
  · unfold fetchTask at ht
    rw [if_neg he] at ht
    have hd := Option.some.inj ht
    rw [← hd]
    rfl

/-- A store whose field map of id a carries a stored Id field b differing
from the queried id, alongside an unrelated index entry. -/
def mismatchStore : Store :=
  { hashes := [("task:a", [("Id", "b"), ("Timestamp", "3")])],
    zsets := [("tasks", [("zzz", 9)])] }

/-- The same field map as mismatchStore with an empty index. -/
def mismatchStore2 : Store :=
  { hashes := [("task:a", [("Id", "b"), ("Timestamp", "3")])], zsets := [] }

/-- Witness for C10: the index difference does not change the fetch, and
the fetched Id is the stored field b, not the queried a. -/
theorem fetch_depends_only_on_fieldmap_witness :
    fetchTask mismatchStore "a" = fetchTask mismatchStore2 "a" ∧
    (deserializeTask [("Id", "b"), ("Timestamp", "3")]).Id =
      getField (hgetAll mismatchStore (taskKey "a")) "Id" :=
  ⟨(fetch_depends_only_on_fieldmap mismatchStore mismatchStore2 "a").1 (by decide),
    (fetch_depends_only_on_fieldmap mismatchStore mismatchStore2 "a").2
      (deserializeTask [("Id", "b"), ("Timestamp", "3")]) (by decide)⟩

end DockCompGo
